import Mathlib

/-!
Verification of the message-classification and time-windowed retrieval
pipeline of `main.py` (class `ChatIssueDetector`).

Texts are modelled as `List Char` (called `Str` below).  Python's
`re`-based operations on the two concrete patterns used by the code
(`^/\S+\s*` in the normalizer and `\b<kw>\b` in the keyword matcher) are
embedded directly as recursive functions with the same semantics on the
modelled character class predicates (`isSpace` for `\s`, `isWordChar`
for `\w`).  The sentiment pipeline (`self.model`) is an injected
external capability; its call result is modelled by `ClassifierResult`:
either a raised exception, or a returned list of dicts each of which
may or may not carry a readable string under the key `"label"`.
Datetimes are modelled as integers (an instant on a linear time axis);
`dateutil.parser.parse` is an external partial function modelled as a
parameter `parseT : Str → Option Int`.
-/

namespace ChatIssueDetector

/-- Message text, modelled as a list of characters. -/
abbrev Str := List Char

/-- Python `\s` / `str.strip` whitespace, restricted to the ASCII range
(space, tab, newline, carriage return, vertical tab, form feed). -/
def isSpace (c : Char) : Bool :=
  c == ' ' || c == '\t' || c == '\n' || c == '\r' || c == '\x0b' || c == '\x0c'

/-- Python `\w` word characters (ASCII range): letters, digits, underscore. -/
def isWordChar (c : Char) : Bool :=
  c.isAlphanum || c == '_'

/-- Python `str.strip()`: drop leading and trailing whitespace. -/
def strip (s : Str) : Str :=
  ((s.dropWhile isSpace).reverse.dropWhile isSpace).reverse

/-- `re.sub(r"^/\S+\s*", "", text)` (main.py lines 75 and 109): if the text
starts with `/` followed by at least one non-whitespace character, remove the
slash, the maximal run of non-whitespace characters, and the following
(possibly empty) maximal run of whitespace; otherwise leave the text alone.
The regex is anchored, `\S+` is greedy and `\s*` matches the empty string, so
this is exactly the regex's action. -/
def subLeadingCommand (s : Str) : Str :=
  match s with
  | '/' :: rest =>
      let nonws := rest.takeWhile (fun c => !isSpace c)
      if nonws.isEmpty then s
      else (rest.dropWhile (fun c => !isSpace c)).dropWhile isSpace
  | _ => s

/-- `re.sub(r"^/\S+\s*", "", text).strip()` — the normalization applied both
in `detect_issue` (line 75) and in `get_messages` (line 109). -/
def normalize (s : Str) : Str :=
  strip (subLeadingCommand s)

/-- The Normalizer exactly as the spec's §4.1 words it: removes a single
leading run matching "a slash character followed by non-whitespace
characters, followed by whitespace" and then trims surrounding whitespace —
so the removed run must end in at least one whitespace character.  Stated
from the spec's words, for comparison with the code's `normalize`. -/
def normalize_spec (s : Str) : Str :=
  strip (match s with
  | '/' :: rest =>
      let nonws := rest.takeWhile (fun c => !isSpace c)
      let rest2 := rest.dropWhile (fun c => !isSpace c)
      if nonws.isEmpty then s
      else if rest2.isEmpty then s
      else rest2.dropWhile isSpace
  | _ => s)

/-- The Normalizer as amended: the whitespace after the slash-command's
non-whitespace run is optional, so a trailing slash-command with nothing
after it is removed as well.  Stated independently of `subLeadingCommand`,
for comparison with the code's `normalize`. -/
def normalize_spec_amended (s : Str) : Str :=
  match s with
  | '/' :: c :: rest =>
      if isSpace c then strip ('/' :: c :: rest)
      else strip ((c :: rest).dropWhile (fun c => !isSpace c))
  | t => strip t

/-- `str.lower()` on the modelled text. -/
def lowerStr (s : Str) : Str := s.map Char.toLower

/-- `str.upper()` on the modelled text. -/
def upperStr (s : Str) : Str := s.map Char.toUpper

/-- The fixed issue vocabulary of `detect_issue` (main.py line 79). -/
def issue_keywords : List Str :=
  ["issue".data, "problem".data, "error".data, "bug".data,
   "fail".data, "crash".data, "not working".data]

/-- Whether position `i` of `s` holds a word character (`false` out of
range).  This is the quantity Python's `\b` compares on each side. -/
def wordAt (s : Str) (i : Nat) : Bool :=
  match s[i]? with
  | some c => isWordChar c
  | none => false

/-- Python's `\b` at offset `i` of `s`: the word-character status changes
between position `i - 1` (out of range counts as non-word) and position
`i`. -/
def boundaryAt (s : Str) (i : Nat) : Bool :=
  match i with
  | 0 => wordAt s 0
  | j + 1 => wordAt s j != wordAt s (j + 1)

/-- The pattern `\b kw \b` matches `s` at offset `i`: the characters of
`kw` occur literally at `i`, and both ends sit on a `\b` boundary. -/
def matchAt (kw s : Str) (i : Nat) : Bool :=
  ((s.drop i).take kw.length == kw) && boundaryAt s i && boundaryAt s (i + kw.length)

/-- `re.search(rf"\b{kw}\b", s)` is not `None`: the bounded pattern matches
at some offset of `s`. -/
def searchWord (kw s : Str) : Bool :=
  (List.range (s.length + 1)).any (matchAt kw s)

/-- The keyword test of `detect_issue` (main.py line 80):
`any(re.search(rf"\b{kw}\b", cleaned_text.lower()) for kw in issue_keywords)`. -/
def hasIssueKeyword (cleaned : Str) : Bool :=
  issue_keywords.any (fun kw => searchWord kw (lowerStr cleaned))

/-- `kw` occurs in `s` delimited by word edges: the occurrence is preceded
by nothing or a non-word character, and followed by nothing or a non-word
character.  This is the spec-level notion of a word-boundary match. -/
def WordOccurrence (kw s : Str) : Prop :=
  ∃ pre post, s = pre ++ kw ++ post ∧
    (pre = [] ∨ ∃ c, pre.getLast? = some c ∧ isWordChar c = false) ∧
    (post = [] ∨ ∃ c, post.head? = some c ∧ isWordChar c = false)

/-- Outcome of a call `self.model(text)` followed by `result[0]["label"]`
(main.py lines 84–85), seen from outside: either the pipeline raised, or it
returned a list of dicts.  Each dict either yields a readable string label
(`some lbl`) or none can be extracted from it (missing `"label"` key,
non-string value — every such shape raises inside the `try`). -/
inductive ClassifierResult where
  | raised : ClassifierResult
  | returned : List (Option Str) → ClassifierResult
deriving DecidableEq, Repr

/-- An injected sentiment classifier capability. -/
abbrev Classifier := Str → ClassifierResult

/-- The `try`/`except` block of `detect_issue` (main.py lines 83–89):
run the classifier on the cleaned text, read `result[0]["label"]`, compare
`label.upper() == "NEGATIVE"`; any raised exception on the way (pipeline
failure, empty result list, unreadable label) yields `False`. -/
def sentimentNegative (model : Classifier) (cleaned : Str) : Bool :=
  match model cleaned with
  | .raised => false                     -- self.model(cleaned_text) raised
  | .returned [] => false                -- result[0] raised IndexError
  | .returned (none :: _) => false       -- result[0]["label"] unreadable
  | .returned (some lbl :: _) => upperStr lbl == "NEGATIVE".data

/-- `ChatIssueDetector.detect_issue` (main.py lines 73–89). -/
def detect_issue (model : Classifier) (text : Str) : Bool :=
  let cleaned_text := normalize text
  if cleaned_text.isEmpty then false
  else if hasIssueKeyword cleaned_text then true
  else sentimentNegative model cleaned_text

/-- One element of `response.get("messages", [])` as `get_messages` reads it
(main.py lines 106–108): a dict in which the keys `"text"` and `"createTime"`
may each be absent. -/
structure Message where
  text? : Option Str
  createTime? : Option Str
deriving DecidableEq, Repr

/-- One element of the list returned by `get_messages` (main.py
lines 113–117): the dict
`{"message": cleaned_text, "timestamp": msg_time, "is_issue": ...}`. -/
structure ClassifiedMessage where
  message : Str
  timestamp : Str
  is_issue : Bool
deriving DecidableEq, Repr

/-- The loop body of `get_messages` over `response.get("messages", [])`
(main.py lines 105–119), given the already-computed threshold instant
`tThr` (the integer modelling `time_threshold`).  Per message:
`text = msg.get("text", "No Text")`, `msg_time = msg.get("createTime", "")`,
`cleaned_text = re.sub(r"^/\S+\s*", "", text).strip()`,
`msg_time_obj = parse(msg_time)` — when this parse fails the Python call
raises, which the `Except` models: the whole call yields an error and no
message list at all.  An in-window message (`msg_time_obj >= threshold`)
is appended; an out-of-window one is skipped. -/
def processMessages (parseT : Str → Option Int) (model : Classifier)
    (tThr : Int) : List Message → Except Unit (List ClassifiedMessage)
  | [] => .ok []
  | msg :: rest =>
    let text := msg.text?.getD "No Text".data
    let msg_time := msg.createTime?.getD []
    let cleaned_text := normalize text
    match parseT msg_time with
    | none => .error ()
    | some msg_time_obj =>
      match processMessages parseT model tThr rest with
      | .error e => .error e
      | .ok tail =>
        if tThr ≤ msg_time_obj then
          .ok ({ message := cleaned_text, timestamp := msg_time,
                 is_issue := detect_issue model cleaned_text } :: tail)
        else .ok tail

/-- `ChatIssueDetector.get_messages` (main.py lines 91–119), with the
external collaborations factored out as parameters: authentication and the
`spaces().messages().list(...)` fetch are the message source's business, so
the fetched page `response.get("messages", [])` enters as `msgs`; `now` is
the integer instant modelling the single `datetime.utcnow()` snapshot of
line 97.  `time_threshold = now - timedelta(hours=hours_ago)` is
`now - hours_ago * 3600` on the seconds axis.  The code compares each
message against `parse(time_threshold.isoformat("T") + "Z")`; a
microsecond-precision ISO-8601 round trip through the external
`datetime.isoformat`/`dateutil.parser.parse` pair returns exactly
`time_threshold`, so the comparison is modelled directly against the
threshold instant. -/
def get_messages (parseT : Str → Option Int) (model : Classifier)
    (now : Int) (hours_ago : Int) (msgs : List Message) :
    Except Unit (List ClassifiedMessage) :=
  processMessages parseT model (now - hours_ago * 3600) msgs

/-- The per-message transformation of the loop body: the dict built on
main.py lines 113–117 for one source message. -/
def classify1 (model : Classifier) (msg : Message) : ClassifiedMessage :=
  let cleaned := normalize (msg.text?.getD "No Text".data)
  { message := cleaned
    timestamp := msg.createTime?.getD []
    is_issue := detect_issue model cleaned }

/-- The include/skip decision of the loop for one message, against the
single threshold instant: `some` of the built dict when the parsed
creation time is in the window, `none` when it is out of the window.
Defined only when the timestamp parses; combined with `filterMap` it
describes the successful runs of the loop. -/
def windowStep (parseT : Str → Option Int) (model : Classifier)
    (tThr : Int) (msg : Message) : Option ClassifiedMessage :=
  match parseT (msg.createTime?.getD []) with
  | some t => if tThr ≤ t then some (classify1 model msg) else none
  | none => none

/-- A concrete stand-in timestamp parser used by concrete instantiations:
accepts a nonempty all-digit string and reads it as a decimal integer;
like `dateutil.parser.parse` it fails on the empty string (the default for
a missing `createTime`). -/
def parseDecimal (s : Str) : Option Int :=
  if s ≠ [] ∧ s.all Char.isDigit then
    some (Int.ofNat (s.foldl (fun acc c => acc * 10 + (c.toNat - 48)) 0))
  else none

/-! ### Supporting lemmas -/

lemma wordAt_eq (s : Str) (i : Nat) :
    wordAt s i = ((s[i]?).map isWordChar).getD false := by
  unfold wordAt
  cases s[i]? <;> rfl

lemma slice_eq_iff (kw s : Str) (i : Nat) (hi : i ≤ s.length) :
    ((s.drop i).take kw.length == kw) = true ↔
      ∃ pre post, s = pre ++ kw ++ post ∧ pre.length = i := by
  rw [beq_iff_eq]
  constructor
  · intro h
    refine ⟨s.take i, s.drop (i + kw.length), ?_, by simp [hi]⟩
    conv_lhs => rw [← List.take_append_drop i s]
    have h2 : s.drop i = kw ++ s.drop (i + kw.length) := by
      conv_lhs => rw [← List.take_append_drop kw.length (s.drop i)]
      rw [h, List.drop_drop]
    rw [h2, List.append_assoc]
  · rintro ⟨pre, post, rfl, rfl⟩
    rw [List.append_assoc] at *
    rw [List.drop_left, List.take_left]

lemma nonempty_of_slice (kw s : Str) (i : Nat) (hne : kw ≠ [])
    (h : ((s.drop i).take kw.length == kw) = true) : i < s.length := by
  rw [beq_iff_eq] at h
  have hlen := congrArg List.length h
  simp [List.length_take, List.length_drop] at hlen
  have hpos : 0 < kw.length := List.length_pos.mpr hne
  omega

lemma boundary_left_iff (kw pre post : Str) (a : Char) (t : Str)
    (hkw : kw = a :: t) (hhd : isWordChar a = true) :
    boundaryAt (pre ++ kw ++ post) pre.length = true ↔
      (pre = [] ∨ ∃ c, pre.getLast? = some c ∧ isWordChar c = false) := by
  subst hkw
  have w0 : wordAt (pre ++ (a :: t) ++ post) pre.length = true := by
    rw [wordAt_eq, List.append_assoc,
      List.getElem?_append_right (Nat.le_refl pre.length)]
    simp [hhd]
  cases pre with
  | nil =>
    simpa [boundaryAt] using w0
  | cons p ps =>
    have hlen : (p :: ps).length = ps.length + 1 := rfl
    rw [hlen]
    show (wordAt _ ps.length != wordAt _ (ps.length + 1)) = true ↔ _
    rw [← hlen, w0]
    have hget : (p :: ps ++ (a :: t) ++ post)[ps.length]? = (p :: ps).getLast? := by
      rw [List.append_assoc, List.getElem?_append_left (by simp)]
      rw [List.getLast?_eq_getElem? (p :: ps), hlen]
      simp
    obtain ⟨c, hc⟩ := Option.isSome_iff_exists.mp
      (List.getLast?_isSome.mpr (by simp : (p :: ps) ≠ []))
    rw [wordAt_eq, hget, hc]
    simp [hc]

lemma boundary_right_iff (kw pre post : Str) (b : Char) (u : Str)
    (hkw : kw = u ++ [b]) (hlast : isWordChar b = true) :
    boundaryAt (pre ++ kw ++ post) (pre.length + kw.length) = true ↔
      (post = [] ∨ ∃ c, post.head? = some c ∧ isWordChar c = false) := by
  subst hkw
  have hkl : (u ++ [b]).length = u.length + 1 := by simp
  have hidx : pre.length + (u ++ [b]).length = (pre.length + u.length) + 1 := by
    simp [hkl]
    omega
  rw [hidx]
  show (wordAt _ (pre.length + u.length) != wordAt _ (pre.length + u.length + 1)) = true ↔ _
  have wlast : wordAt (pre ++ (u ++ [b]) ++ post) (pre.length + u.length) = true := by
    rw [wordAt_eq, List.append_assoc,
      List.getElem?_append_right (by omega : pre.length ≤ pre.length + u.length)]
    have h0 : (pre.length + u.length) - pre.length = u.length := by omega
    rw [h0, List.getElem?_append_left (by simp : u.length < (u ++ [b]).length)]
    simp [hlast]
  rw [wlast]
  have wpost : wordAt (pre ++ (u ++ [b]) ++ post) (pre.length + u.length + 1) =
      ((post.head?).map isWordChar).getD false := by
    rw [wordAt_eq, List.append_assoc,
      List.getElem?_append_right (by omega : pre.length ≤ pre.length + u.length + 1)]
    have h1 : (pre.length + u.length + 1) - pre.length = u.length + 1 := by omega
    rw [h1, List.getElem?_append_right (by simp [hkl] : (u ++ [b]).length ≤ u.length + 1)]
    have h2 : u.length + 1 - (u ++ [b]).length = 0 := by simp [hkl]
    rw [h2, ← List.head?_eq_getElem?]
  rw [wpost]
  cases post with
  | nil => simp
  | cons q qs => simp

lemma searchWord_iff (kw s : Str) (hne : kw ≠ [])
    (hhd : ((kw.head?).map isWordChar).getD false = true)
    (hlast : ((kw.getLast?).map isWordChar).getD false = true) :
    searchWord kw s = true ↔ WordOccurrence kw s := by
  obtain ⟨a, t, hkw1⟩ : ∃ a t, kw = a :: t := by
    cases kw with
    | nil => exact absurd rfl hne
    | cons a t => exact ⟨a, t, rfl⟩
  obtain ⟨u, b, hkw2⟩ : ∃ u b, kw = u ++ [b] := by
    rcases List.eq_nil_or_concat kw with h | ⟨u, b, h⟩
    · exact absurd h hne
    · exact ⟨u, b, by simpa [List.concat_eq_append] using h⟩
  have hhd' : isWordChar a = true := by
    rw [hkw1] at hhd
    simpa using hhd
  have hlast' : isWordChar b = true := by
    rw [hkw2] at hlast
    simpa [List.getLast?_concat] using hlast
  unfold searchWord
  rw [List.any_eq_true]
  constructor
  · rintro ⟨i, -, hm⟩
    unfold matchAt at hm
    simp only [Bool.and_eq_true] at hm
    obtain ⟨⟨hsl, hb1⟩, hb2⟩ := hm
    have hlt : i < s.length := nonempty_of_slice kw s i hne hsl
    obtain ⟨pre, post, rfl, rfl⟩ := (slice_eq_iff kw s i (Nat.le_of_lt hlt)).mp hsl
    exact ⟨pre, post, rfl,
      (boundary_left_iff kw pre post a t hkw1 hhd').mp hb1,
      (boundary_right_iff kw pre post b u hkw2 hlast').mp hb2⟩
  · rintro ⟨pre, post, rfl, hL, hR⟩
    refine ⟨pre.length, ?_, ?_⟩
    · rw [List.mem_range]
      have := List.length_pos.mpr hne
      simp
      omega
    · unfold matchAt
      simp only [Bool.and_eq_true]
      refine ⟨⟨?_, (boundary_left_iff kw pre post a t hkw1 hhd').mpr hL⟩,
        (boundary_right_iff kw pre post b u hkw2 hlast').mpr hR⟩
      apply (slice_eq_iff kw _ pre.length (by simp)).mpr
      exact ⟨pre, post, rfl, rfl⟩

/-- Every entry of the fixed vocabulary is nonempty and starts and ends
on a word character, so `\b<kw>\b` reduces to word-edge delimitation. -/
lemma issue_keywords_shape : ∀ kw ∈ issue_keywords, kw ≠ [] ∧
    ((kw.head?).map isWordChar).getD false = true ∧
    ((kw.getLast?).map isWordChar).getD false = true := by
  decide

/-- The keyword test of `detect_issue` succeeds exactly when some vocabulary
entry occurs word-edge-delimited in the lowercased text. -/
lemma hasIssueKeyword_iff (cleaned : Str) :
    hasIssueKeyword cleaned = true ↔
      ∃ kw ∈ issue_keywords, WordOccurrence kw (lowerStr cleaned) := by
  unfold hasIssueKeyword
  rw [List.any_eq_true]
  constructor
  · rintro ⟨kw, hmem, hs⟩
    obtain ⟨hne, hhd, hlast⟩ := issue_keywords_shape kw hmem
    exact ⟨kw, hmem, (searchWord_iff kw _ hne hhd hlast).mp hs⟩
  · rintro ⟨kw, hmem, hocc⟩
    obtain ⟨hne, hhd, hlast⟩ := issue_keywords_shape kw hmem
    exact ⟨kw, hmem, (searchWord_iff kw _ hne hhd hlast).mpr hocc⟩

lemma hasIssueKeyword_nil : hasIssueKeyword [] = false := by
  decide

lemma detect_issue_eq (model : Classifier) (text : Str) :
    detect_issue model text =
      if (normalize text).isEmpty then false
      else if hasIssueKeyword (normalize text) then true
      else sentimentNegative model (normalize text) := rfl

lemma dropWhile_isSpace_idem (l : Str) :
    (l.dropWhile isSpace).dropWhile isSpace = l.dropWhile isSpace := by
  induction l with
  | nil => rfl
  | cons a l ih =>
    by_cases h : isSpace a
    · simp [List.dropWhile_cons, h, ih]
    · simp [List.dropWhile_cons, h]

lemma strip_dropWhile (l : Str) : strip (l.dropWhile isSpace) = strip l := by
  unfold strip
  rw [dropWhile_isSpace_idem]

lemma processMessages_eq_ok (parseT : Str → Option Int) (model : Classifier)
    (tThr : Int) (msgs : List Message)
    (h : ∀ msg ∈ msgs, (parseT (msg.createTime?.getD [])).isSome = true) :
    processMessages parseT model tThr msgs =
      Except.ok (msgs.filterMap (windowStep parseT model tThr)) := by
  induction msgs with
  | nil => rfl
  | cons m rest ih =>
    have hm := h m (List.mem_cons_self m rest)
    obtain ⟨t, hp⟩ := Option.isSome_iff_exists.mp hm
    have hrest := ih (fun x hx => h x (List.mem_cons_of_mem m hx))
    by_cases hin : tThr ≤ t
    · simp [processMessages, hp, hrest, windowStep, List.filterMap_cons, hin, classify1]
    · simp [processMessages, hp, hrest, windowStep, List.filterMap_cons, hin]

lemma processMessages_parses_of_ok (parseT : Str → Option Int) (model : Classifier)
    (tThr : Int) (msgs : List Message) (out : List ClassifiedMessage)
    (h : processMessages parseT model tThr msgs = Except.ok out) :
    ∀ msg ∈ msgs, (parseT (msg.createTime?.getD [])).isSome = true := by
  induction msgs generalizing out with
  | nil => simp
  | cons m rest ih =>
    intro msg hmem
    unfold processMessages at h
    cases hp : parseT (m.createTime?.getD []) with
    | none =>
      simp only [hp] at h
      exact absurd h (by simp)
    | some t =>
      simp only [hp] at h
      cases hrec : processMessages parseT model tThr rest with
      | error e =>
        simp only [hrec] at h
        exact absurd h (by simp)
      | ok tail =>
        rcases List.mem_cons.mp hmem with rfl | hmem2
        · simp [hp]
        · exact ih tail hrec msg hmem2

lemma processMessages_ok_iff (parseT : Str → Option Int) (model : Classifier)
    (tThr : Int) (msgs : List Message) (out : List ClassifiedMessage) :
    processMessages parseT model tThr msgs = Except.ok out ↔
      (∀ msg ∈ msgs, (parseT (msg.createTime?.getD [])).isSome = true) ∧
      out = msgs.filterMap (windowStep parseT model tThr) := by
  constructor
  · intro h
    have hall := processMessages_parses_of_ok parseT model tThr msgs out h
    refine ⟨hall, ?_⟩
    rw [processMessages_eq_ok parseT model tThr msgs hall] at h
    exact (Except.ok.inj h).symm
  · rintro ⟨hall, rfl⟩
    exact processMessages_eq_ok parseT model tThr msgs hall

lemma processMessages_error_of_mem (parseT : Str → Option Int) (model : Classifier)
    (tThr : Int) (msgs : List Message) (m : Message)
    (hm : m ∈ msgs) (hp : parseT (m.createTime?.getD []) = none) :
    processMessages parseT model tThr msgs = Except.error () := by
  cases hres : processMessages parseT model tThr msgs with
  | error e => cases e; rfl
  | ok out =>
    have := processMessages_parses_of_ok parseT model tThr msgs out hres m hm
    rw [hp] at this
    exact absurd this (by simp)

lemma windowStep_some (parseT : Str → Option Int) (model : Classifier)
    (tThr : Int) (msg : Message) (c : ClassifiedMessage)
    (h : windowStep parseT model tThr msg = some c) : c = classify1 model msg := by
  unfold windowStep at h
  cases hp : parseT (msg.createTime?.getD []) with
  | none =>
    simp only [hp] at h
    exact absurd h (by simp)
  | some t =>
    simp only [hp] at h
    by_cases hin : tThr ≤ t
    · rw [if_pos hin] at h
      exact (Option.some.inj h).symm
    · rw [if_neg hin] at h
      exact absurd h (by simp)

lemma filterMap_sublist_map {α β : Type} (f : α → Option β) (g : α → β)
    (l : List α) (h : ∀ x y, f x = some y → y = g x) :
    List.Sublist (l.filterMap f) (l.map g) := by
  induction l with
  | nil => simp
  | cons a l ih =>
    rw [List.filterMap_cons, List.map_cons]
    cases hf : f a with
    | none => exact List.Sublist.cons (g a) ih
    | some y =>
      rw [h a y hf]
      exact List.Sublist.cons₂ (g a) ih

/-! ### The claims -/

/-- C1: on every successful retrieval call, the output is exactly the fetched
page filtered through one fixed threshold instant `now - hours_ago * 3600`:
the threshold is derived once from the single `now` snapshot of the call, and
a classified message for a source message appears in the output iff that
message's parsed `createTime` is `>=` this single threshold (the content of
`windowStep` at that one threshold). -/
theorem claim_C1_single_threshold_filter (parseT : Str → Option Int)
    (model : Classifier) (now hours_ago : Int) (msgs : List Message)
    (out : List ClassifiedMessage)
    (h : get_messages parseT model now hours_ago msgs = Except.ok out) :
    out = msgs.filterMap (windowStep parseT model (now - hours_ago * 3600)) :=
  ((processMessages_ok_iff parseT model (now - hours_ago * 3600) msgs out).mp h).2

theorem claim_C1_single_threshold_filter_witness :
    get_messages parseDecimal (fun _ => ClassifierResult.raised) 3700 1
      [⟨some "alpha bug".data, some "130".data⟩,
       ⟨some "beta".data, some "50".data⟩] =
      Except.ok [⟨"alpha bug".data, "130".data, true⟩] ∧
    [⟨"alpha bug".data, "130".data, true⟩] =
      List.filterMap
        (windowStep parseDecimal (fun _ => ClassifierResult.raised) (3700 - 1 * 3600))
        [⟨some "alpha bug".data, some "130".data⟩,
         ⟨some "beta".data, some "50".data⟩] :=
  ⟨rfl, claim_C1_single_threshold_filter parseDecimal (fun _ => ClassifierResult.raised)
    3700 1 _ _ rfl⟩

/-- C2: whenever the normalized form of a raw text contains an issue keyword
word-edge-delimited in its lowercasing, `detect_issue` returns `true` for
every injected classifier whatsoever — in particular the result does not
depend on the classifier's output or availability, so the sentiment branch
is never consulted. -/
theorem claim_C2_keyword_short_circuit (text : Str)
    (h : ∃ kw ∈ issue_keywords, WordOccurrence kw (lowerStr (normalize text))) :
    ∀ model : Classifier, detect_issue model text = true := by
  intro model
  have hkw : hasIssueKeyword (normalize text) = true :=
    (hasIssueKeyword_iff (normalize text)).mpr h
  have hne : (normalize text).isEmpty = false := by
    cases hemp : normalize text with
    | nil =>
      rw [hemp] at hkw
      exact absurd hkw (by simp [hasIssueKeyword_nil])
    | cons c cs => rfl
  rw [detect_issue_eq, hne, if_neg (by simp), hkw, if_pos rfl]

theorem claim_C2_keyword_short_circuit_witness :
    detect_issue (fun _ => ClassifierResult.raised) "there is a bug here".data = true :=
  claim_C2_keyword_short_circuit "there is a bug here".data
    ⟨"bug".data, by decide,
      "there is a ".data, " here".data, by decide,
      Or.inr ⟨' ', by decide⟩, Or.inr ⟨' ', by decide⟩⟩
    (fun _ => ClassifierResult.raised)

/-- C3: for a raw text whose normalization is nonempty and keyword-free,
any classifier failure — a raised exception, an empty result list, or a
result whose first entry yields no readable label — is absorbed and
`detect_issue` returns `false`; nothing propagates to the caller. -/
theorem claim_C3_classifier_failure_fail_open (model : Classifier) (text : Str)
    (h1 : normalize text ≠ [])
    (h2 : hasIssueKeyword (normalize text) = false)
    (h3 : model (normalize text) = ClassifierResult.raised ∨
          model (normalize text) = ClassifierResult.returned [] ∨
          ∃ rest, model (normalize text) = ClassifierResult.returned (none :: rest)) :
    detect_issue model text = false := by
  rw [detect_issue_eq, if_neg (by simp [h1]), h2, if_neg (by simp)]
  unfold sentimentNegative
  rcases h3 with h | h | ⟨rest, h⟩ <;> rw [h]

theorem claim_C3_classifier_failure_fail_open_witness :
    detect_issue (fun _ => ClassifierResult.raised)
      "everything is terrible today".data = false :=
  claim_C3_classifier_failure_fail_open (fun _ => ClassifierResult.raised)
    "everything is terrible today".data (by decide) (by decide) (Or.inl rfl)

/-- C4 counterexample: the claim says `normalize` removes a leading run of
"slash, non-whitespace characters, then whitespace" and otherwise only trims,
but the code's pattern `^/\S+\s*` makes the trailing whitespace optional: on
the input `"/bug"`, which has no whitespace after the command, the claimed
normalizer leaves `"/bug"` while the code's normalizer removes everything and
returns the empty string. -/
theorem claim_C4_counterexample_bare_command :
    normalize "/bug".data ≠ normalize_spec "/bug".data ∧
    normalize "/bug".data = [] ∧
    normalize_spec "/bug".data = "/bug".data := by
  refine ⟨?_, by decide, by decide⟩
  decide

/-- C4 amended: `normalize` removes exactly one leading run matching "a slash
character followed by non-whitespace characters, followed by *optional*
whitespace" and then trims leading/trailing whitespace; every input not
starting with a slash is only whitespace-trimmed; and in particular
`normalize("/bug   system down") = "system down"`. -/
theorem claim_C4_amended_normalizer :
    (∀ s : Str, normalize s = normalize_spec_amended s) ∧
    normalize "/bug   system down".data = "system down".data ∧
    (∀ c : Char, ∀ s : Str, c ≠ '/' → normalize (c :: s) = strip (c :: s)) ∧
    normalize [] = [] := by
  have hmain : ∀ s : Str, normalize s = normalize_spec_amended s := by
    intro s
    cases s with
    | nil => rfl
    | cons c0 srest =>
      by_cases hc : c0 = '/'
      · subst hc
        cases srest with
        | nil => rfl
        | cons c rest =>
          by_cases hsp : isSpace c
          · simp [normalize, subLeadingCommand, normalize_spec_amended,
              List.takeWhile_cons, hsp]
          · simp [normalize, subLeadingCommand, normalize_spec_amended,
              List.takeWhile_cons, List.dropWhile_cons, hsp, strip_dropWhile]
      · have h1 : subLeadingCommand (c0 :: srest) = c0 :: srest := by
          unfold subLeadingCommand
          split
          · next heq =>
            exact absurd (List.cons.inj heq).1 hc
          · rfl
        have h2 : normalize_spec_amended (c0 :: srest) = strip (c0 :: srest) := by
          unfold normalize_spec_amended
          split
          · next heq =>
            exact absurd (List.cons.inj heq).1 hc
          · rfl
        rw [normalize, h1, h2]
  refine ⟨hmain, by decide, ?_, rfl⟩
  intro c s hc
  rw [hmain (c :: s)]
  unfold normalize_spec_amended
  split
  · next heq =>
    exact absurd (List.cons.inj heq).1 hc
  · rfl

theorem claim_C4_amended_normalizer_witness :
    normalize ('x' :: " hi ".data) = strip ('x' :: " hi ".data) :=
  claim_C4_amended_normalizer.2.2.1 'x' " hi ".data (by decide)

/-- C5: the keyword test against the fixed vocabulary is word-boundary-based
and case-insensitive, not
substring-based: it succeeds exactly when some vocabulary entry occurs
word-edge-delimited in the lowercased text; `"fail"` occurring only inside
`"failing"` does not match even though it is a substring, and an uppercase
`"BUG"` does match. -/
theorem claim_C5_word_boundary_matching :
    (∀ s : Str, hasIssueKeyword s = true ↔
      ∃ kw ∈ issue_keywords, WordOccurrence kw (lowerStr s)) ∧
    hasIssueKeyword "the build is failing".data = false ∧
    (("the build is failing".data.drop 13).take "fail".data.length
      == "fail".data) = true ∧
    hasIssueKeyword "The BUG Is Here".data = true :=
  ⟨hasIssueKeyword_iff, by decide, by decide, by decide⟩

/-- C6: a raw text that normalizes to the empty string is never an issue:
`detect_issue` returns `false` for every classifier, and the keyword test
on the normalized text is negative as well, so neither the keyword branch
nor the sentiment branch decides. -/
theorem claim_C6_empty_never_issue (model : Classifier) (text : Str)
    (h : normalize text = []) :
    detect_issue model text = false ∧
      hasIssueKeyword (normalize text) = false := by
  constructor
  · rw [detect_issue_eq, h]
    rfl
  · rw [h]
    exact hasIssueKeyword_nil

theorem claim_C6_empty_never_issue_witness :
    normalize "   ".data = [] ∧
      detect_issue (fun _ => ClassifierResult.returned [some "NEGATIVE".data])
        "   ".data = false :=
  ⟨by decide,
    (claim_C6_empty_never_issue
      (fun _ => ClassifierResult.returned [some "NEGATIVE".data])
      "   ".data (by decide)).1⟩

/-- C7: for a nonempty, keyword-free normalized text, when the classifier
returns a first result carrying a readable label, `detect_issue` is `true`
exactly when the label uppercases to `"NEGATIVE"` — the case-insensitive
comparison of the adapter. -/
theorem claim_C7_negative_label_iff (model : Classifier) (text lbl : Str)
    (rest : List (Option Str))
    (h1 : normalize text ≠ [])
    (h2 : hasIssueKeyword (normalize text) = false)
    (h3 : model (normalize text) = ClassifierResult.returned (some lbl :: rest)) :
    detect_issue model text = true ↔ upperStr lbl = "NEGATIVE".data := by
  rw [detect_issue_eq, if_neg (by simp [h1]), h2, if_neg (by simp)]
  unfold sentimentNegative
  rw [h3, beq_iff_eq]

theorem claim_C7_negative_label_iff_witness :
    detect_issue (fun _ => ClassifierResult.returned [some "negative".data])
      "everything is terrible today".data = true ∧
    detect_issue (fun _ => ClassifierResult.returned [some "POSITIVE".data])
      "everything is terrible today".data = false := by
  constructor
  · exact (claim_C7_negative_label_iff
      (fun _ => ClassifierResult.returned [some "negative".data])
      "everything is terrible today".data "negative".data []
      (by decide) (by decide) rfl).mpr (by decide)
  · have h := claim_C7_negative_label_iff
      (fun _ => ClassifierResult.returned [some "POSITIVE".data])
      "everything is terrible today".data "POSITIVE".data []
      (by decide) (by decide) rfl
    cases hb : detect_issue (fun _ => ClassifierResult.returned [some "POSITIVE".data])
        "everything is terrible today".data with
    | false => rfl
    | true => exact absurd (h.mp hb) (by decide)

/-- C8: if any fetched message's `createTime` fails to parse — including a
missing `createTime`, which defaults to the empty string — the whole call
reports the parse error to its caller: the result is an error, never a
partial list of the messages processed before (or after) the failure. -/
theorem claim_C8_parse_error_propagates (parseT : Str → Option Int)
    (model : Classifier) (now hours_ago : Int) (msgs : List Message)
    (m : Message) (hm : m ∈ msgs)
    (hp : parseT (m.createTime?.getD []) = none) :
    get_messages parseT model now hours_ago msgs = Except.error () :=
  processMessages_error_of_mem parseT model (now - hours_ago * 3600) msgs m hm hp

theorem claim_C8_parse_error_propagates_witness :
    get_messages parseDecimal (fun _ => ClassifierResult.raised) 3700 1
      [⟨some "good fresh message".data, some "3650".data⟩,
       ⟨some "missing createTime".data, none⟩] = Except.error () :=
  claim_C8_parse_error_propagates parseDecimal (fun _ => ClassifierResult.raised)
    3700 1 _ ⟨some "missing createTime".data, none⟩ (by decide) rfl

/-- C9: the successful output is a subsequence of the fetched page mapped
through the per-message transformation, so any two surviving messages keep
their source order (the source returns them descending by creation time); and
every output entry is the transformation of some fetched message, with its
`timestamp` field the source's `createTime` string unmodified. -/
theorem claim_C9_order_and_timestamps (parseT : Str → Option Int)
    (model : Classifier) (now hours_ago : Int) (msgs : List Message)
    (out : List ClassifiedMessage)
    (h : get_messages parseT model now hours_ago msgs = Except.ok out) :
    List.Sublist out (msgs.map (classify1 model)) ∧
    ∀ c ∈ out, ∃ msg ∈ msgs, c = classify1 model msg ∧
      c.timestamp = msg.createTime?.getD [] := by
  obtain ⟨hall, rfl⟩ :=
    (processMessages_ok_iff parseT model (now - hours_ago * 3600) msgs out).mp h
  constructor
  · exact filterMap_sublist_map _ _ msgs
      (fun x y hxy => windowStep_some parseT model _ x y hxy)
  · intro c hc
    obtain ⟨msg, hmem, hstep⟩ := List.mem_filterMap.mp hc
    have hc1 := windowStep_some parseT model _ msg c hstep
    exact ⟨msg, hmem, hc1, by rw [hc1]; rfl⟩

theorem claim_C9_order_and_timestamps_witness :
    List.Sublist [⟨"alpha bug".data, "130".data, true⟩, ⟨"gamma".data, "120".data, false⟩]
      (List.map (classify1 (fun _ => ClassifierResult.raised))
        [⟨some "alpha bug".data, some "130".data⟩,
         ⟨some "beta".data, some "50".data⟩,
         ⟨some "gamma".data, some "120".data⟩]) :=
  (claim_C9_order_and_timestamps parseDecimal (fun _ => ClassifierResult.raised)
    3700 1
    [⟨some "alpha bug".data, some "130".data⟩,
     ⟨some "beta".data, some "50".data⟩,
     ⟨some "gamma".data, some "120".data⟩]
    [⟨"alpha bug".data, "130".data, true⟩, ⟨"gamma".data, "120".data, false⟩]
    rfl).1

/-- C10: normalization is not idempotent, and `get_messages` applies it twice
per message: the returned `message` field is the once-normalized text while
`is_issue` comes from `detect_issue` on that once-normalized text, which
strips a further leading slash-command token.  For the raw text
`"/a /b bug"` the output message is `"/b bug"` (still starting with the
second token) while the classification decision is taken on `"bug"` (both
tokens removed) — so the concrete retrieval returns
`{message: "/b bug", is_issue: true}` without consulting the classifier. -/
theorem claim_C10_double_normalization :
    normalize (normalize "/a /b bug".data) ≠ normalize "/a /b bug".data ∧
    normalize "/a /b bug".data = "/b bug".data ∧
    normalize "/b bug".data = "bug".data ∧
    (∀ model : Classifier,
      detect_issue model "/b bug".data = detect_issue model "bug".data) ∧
    (∀ (parseT : Str → Option Int) (model : Classifier) (now hours_ago : Int)
      (msgs : List Message) (out : List ClassifiedMessage),
      get_messages parseT model now hours_ago msgs = Except.ok out →
      ∀ c ∈ out, ∃ msg ∈ msgs,
        c.message = normalize (msg.text?.getD "No Text".data) ∧
        c.is_issue = detect_issue model (normalize (msg.text?.getD "No Text".data))) ∧
    get_messages parseDecimal (fun _ => ClassifierResult.raised) 3700 1
      [⟨some "/a /b bug".data, some "200".data⟩] =
      Except.ok [⟨"/b bug".data, "200".data, true⟩] := by
  refine ⟨by decide, by decide, by decide, ?_, ?_, rfl⟩
  · intro model
    rw [detect_issue_eq, detect_issue_eq,
      show normalize "/b bug".data = normalize "bug".data from by decide]
  · intro parseT model now hours_ago msgs out h c hc
    obtain ⟨hall, rfl⟩ :=
      (processMessages_ok_iff parseT model (now - hours_ago * 3600) msgs out).mp h
    obtain ⟨msg, hmem, hstep⟩ := List.mem_filterMap.mp hc
    have hc1 := windowStep_some parseT model _ msg c hstep
    exact ⟨msg, hmem, by rw [hc1]; rfl, by rw [hc1]; rfl⟩

theorem claim_C10_double_normalization_witness :
    detect_issue (fun _ => ClassifierResult.raised) "/b bug".data =
      detect_issue (fun _ => ClassifierResult.raised) "bug".data :=
  claim_C10_double_normalization.2.2.2.1 (fun _ => ClassifierResult.raised)

end ChatIssueDetector
